import Mathlib

/-!
Verification of the semantic retrieval (RAG) subsystem of the chatbase
repository, translated from:
  - src/utils/rulesLoader.js        (loadLegalRules, validateRule)
  - src/utils/rulesNormalizer.js    (normalizeRule, normalizeAllRules, filterNormalizedRules)
  - src/utils/embeddingsGenerator.js (generateEmbedding, generateEmbeddingsBatch,
      generateRuleEmbeddings, cosineSimilarity, semanticSearch, loadCachedEmbeddings)
  - src/utils/legalRulesRAG.js      (class LegalRulesRAG)

Modelling conventions:
  - JS numbers become real numbers (ℝ); vectors become `List ℝ`.
  - JS exceptions become `Except String`; the external embedding provider and
    the durable browser cache (localStorage) are passed in as explicit inputs.
  - A JS string field that may be `undefined` becomes `Option String`;
    JS truthiness of such a field is `truthy` below (absent and "" are falsy).
  - `Date.now()` is an explicit `now : Int` parameter (epoch milliseconds).
-/

/-! ### JavaScript string / array primitives -/

/-- Models JS `String.prototype.trim()`: drop leading and trailing whitespace.
Defined over the character list so that it is kernel-computable. -/
def jsTrim (s : String) : String :=
  ⟨((s.data.dropWhile Char.isWhitespace).reverse.dropWhile Char.isWhitespace).reverse⟩

/-- Models JS `String.prototype.toLowerCase()` (simple per-character mapping). -/
def jsToLowerCase (s : String) : String :=
  ⟨s.data.map Char.toLower⟩

/-- Helper for `jsIncludes`: does `needle` occur as a contiguous run in the list? -/
def jsIncludesList (needle : List Char) : List Char → Bool
  | [] => needle.isEmpty
  | c :: t => needle.isPrefixOf (c :: t) || jsIncludesList needle t

/-- Models JS `a.includes(b)`: substring containment (empty `b` is contained). -/
def jsIncludes (a b : String) : Bool :=
  jsIncludesList b.data a.data

/-- JS truthiness of a possibly-absent string: `undefined` and `""` are falsy. -/
def truthy : Option String → Bool
  | none => false
  | some s => !(s == "")

/-- Models JS `o || d` for a possibly-absent string `o` (truthiness-based default). -/
def jsOr (o : Option String) (d : String) : String :=
  match o with
  | none => d
  | some s => if s == "" then d else s

/-- Models JS `l.slice(0, k)` for an integer `k`: a negative end index counts
from the end of the array (ECMA-262 `Array.prototype.slice`). -/
def jsSliceEnd (l : List α) (k : Int) : List α :=
  l.take (if k < 0 then ((l.length : Int) + k).toNat else k.toNat)

/-- Models JS `parts.join(sep)`. -/
def joinWith (sep : String) : List String → String
  | [] => ""
  | [a] => a
  | a :: b :: t => a ++ sep ++ joinWith sep (b :: t)

/-- Consecutive chunks of at most `bs` elements, in order: models the loop
`for (let i = 0; i < texts.length; i += batchSize) texts.slice(i, i + batchSize)`
of `generateEmbeddingsBatch`. For `bs ≥ 1` the head case equals
`l.take bs :: chunkList bs (l.drop bs)`; the JS loop does not terminate for
`batchSize = 0`, and this definition is only used (and only claimed faithful)
for `bs ≥ 1`. -/
def chunkList (bs : Nat) : List α → List (List α)
  | [] => []
  | x :: xs => (x :: xs.take (bs - 1)) :: chunkList bs (xs.drop (bs - 1))
termination_by l => l.length
decreasing_by simp; omega

/-! ### Data model -/

/-- Dataset-level metadata of the rule corpus (`rulesData.metadata`). -/
structure MetaInfo where
  jurisdiction : Option String
  version : Option String
deriving DecidableEq

/-- Raw rule record as found in the JSONC dataset. A required string field
that may be missing in the raw data is modelled as `""` when the code only
ever tests it for truthiness (`rule_id`, `rule`, `severity`); genuinely
optional fields are `Option String`. `contract_types` is `none` when the
field is absent (a present array, even empty, is truthy in JS). -/
structure RuleRecord where
  rule_id : String
  category : Option String
  rule : String
  bad_example : Option String
  good_example : Option String
  explanation : Option String
  severity : String
  contract_types : Option (List String)
  jurisdiction : Option String
  reference : Option String
deriving DecidableEq

/-- Metadata attached to a normalized rule by `normalizeRule`. -/
structure RuleMetadata where
  jurisdiction : String
  severity : String
  contract_types : List String
  category : Option String
  reference : Option String
deriving DecidableEq

/-- Normalized rule: `{ id, text, metadata }`. -/
structure NormalizedRule where
  id : String
  text : String
  metadata : RuleMetadata
deriving DecidableEq

/-- Normalized rule with its embedding vector attached. -/
structure EmbeddedRule where
  id : String
  text : String
  metadata : RuleMetadata
  embedding : List ℝ

/-- Common shape of `searchRelevantRules` results. The semantic path returns
rules carrying an embedding and a similarity score; the keyword-fallback path
returns plain normalized rules, on which both fields are absent (`none`). -/
structure ScoredRule where
  id : String
  text : String
  metadata : RuleMetadata
  embedding : Option (List ℝ)
  similarityScore : Option ℝ

/-- Intermediate pair used while ranking (`{...rule, similarityScore}`). -/
structure Scored where
  rule : EmbeddedRule
  score : ℝ

/-- Conversion of a ranked rule to the common result shape. -/
def Scored.toScoredRule (p : Scored) : ScoredRule :=
  { id := p.rule.id, text := p.rule.text, metadata := p.rule.metadata,
    embedding := some p.rule.embedding, similarityScore := some p.score }

/-- Conversion of a keyword-fallback result to the common result shape:
no embedding and no similarity score are present on it. -/
def ScoredRule.ofNormalized (r : NormalizedRule) : ScoredRule :=
  { id := r.id, text := r.text, metadata := r.metadata,
    embedding := none, similarityScore := none }

/-- Persisted cache entry `{ version, timestamp, rules }` (epoch-ms timestamp). -/
structure CacheEntry where
  version : String
  timestamp : Int
  rules : List EmbeddedRule

/-- Deserialized, comment-stripped rules dataset (`rulesData`); `rules` is
`none` when the `rules` key is absent or not an array. -/
structure RulesData where
  rules : Option (List RuleRecord)
  metadata : Option MetaInfo
deriving DecidableEq

/-- Result shape of `loadLegalRules` (the `stats` field, unused downstream,
is not modelled). -/
structure LoadResult where
  success : Bool
  rules : List RuleRecord
  metadata : Option MetaInfo
  errors : List String
deriving DecidableEq

/-! ### Rules loader (rulesLoader.js) -/

/-- Valid severities accepted by the loader. -/
def validSeverities : List String := ["low", "medium", "high"]

/-- Models `validateRule(rule, index)`, returning its `errors` list (the
result is valid iff the list is empty). The `typeof` re-checks of the JS
version are vacuous in this typed model. Quotes around field names in the
messages are omitted. -/
def validateRule (index : Nat) (r : RuleRecord) : List String :=
  let pre := "Rule at index " ++ toString index ++ ": "
  (if r.rule_id == "" then [pre ++ "Missing required field rule_id"] else []) ++
  (if r.rule == "" then [pre ++ "Missing required field rule"] else []) ++
  (if r.severity == "" then [pre ++ "Missing required field severity"] else []) ++
  (if r.contract_types == none then [pre ++ "Missing required field contract_types"] else []) ++
  (if !(r.severity == "") && !(validSeverities.contains r.severity) then
    [pre ++ "severity must be one of: low, medium, high"] else []) ++
  (match r.contract_types with
   | some l => if l.isEmpty then [pre ++ "contract_types array cannot be empty"] else []
   | none => [])

/-- Models the `rulesData.rules.forEach` validation loop of `loadLegalRules`:
valid rules are collected in order, errors are concatenated in order. -/
def validateLoop (index : Nat) : List RuleRecord → List RuleRecord × List String
  | [] => ([], [])
  | r :: rs =>
    let v := validateRule index r
    let rest := validateLoop (index + 1) rs
    if v.isEmpty then (r :: rest.1, rest.2) else (rest.1, v ++ rest.2)

/-- Models `loadLegalRules()`. The fetch of the JSONC file is an input:
`.error e` models a thrown fetch/parse error (caught by the outer catch),
`.ok none` models a missing/null parsed dataset, `.ok (some rd)` a parsed one. -/
def loadLegalRules (fetched : Except String (Option RulesData)) : LoadResult :=
  match fetched with
  | .error e =>
    { success := false, rules := [], metadata := none,
      errors := ["Error loading rules: " ++ e] }
  | .ok none =>
    { success := false, rules := [], metadata := none,
      errors := ["Failed to load rules data file"] }
  | .ok (some rd) =>
    match rd.rules with
    | none =>
      { success := false, rules := [], metadata := rd.metadata,
        errors := ["Rules data must contain a rules array"] }
    | some rules =>
      let validated := validateLoop 0 rules
      { success := validated.2.length == 0, rules := validated.1,
        metadata := rd.metadata, errors := validated.2 }

/-! ### Rules normalizer (rulesNormalizer.js) -/

/-- Models `normalizeRule(rule, jurisdiction)`. The text parts are pushed in
fixed order, the optional ones guarded by JS truthiness of the raw field, and
the whole joined text is trimmed once at the end (the individual fields are
not trimmed by the source). -/
def normalizeRule (r : RuleRecord) (jurisdiction : String) : NormalizedRule :=
  let textParts := ["Rule: " ++ r.rule]
  let textParts := textParts ++
    (if truthy r.bad_example then ["Bad example: " ++ r.bad_example.getD ""] else [])
  let textParts := textParts ++
    (if truthy r.good_example then ["Good example: " ++ r.good_example.getD ""] else [])
  let textParts := textParts ++
    (if truthy r.explanation then ["Explanation: " ++ r.explanation.getD ""] else [])
  let text := jsTrim (joinWith "\n" textParts)
  { id := r.rule_id
    text := text
    metadata :=
      { jurisdiction := jsOr r.jurisdiction jurisdiction
        severity := r.severity
        contract_types := r.contract_types.getD []
        category := if truthy r.category then r.category else none
        reference := if truthy r.reference then r.reference else none } }

/-- Models `normalizeAllRules(rulesData)` applied to a `loadLegalRules` result
(its `rules` field is always an array in this typed model). -/
def normalizeAllRules (result : LoadResult) : List NormalizedRule :=
  let jurisdiction := jsOr (result.metadata.bind MetaInfo.jurisdiction) "US"
  result.rules.map (fun r => normalizeRule r jurisdiction)

/-- Filter criteria of `filterNormalizedRules` (each absent or truthy-guarded). -/
structure RuleFilters where
  severity : Option String
  contractType : Option String
  category : Option String
  jurisdiction : Option String
deriving DecidableEq

/-- Truthiness-guarded filter clause: absent or empty criteria always pass,
a present non-empty criterion must satisfy `test`. -/
def jsFilterPass (fv : Option String) (test : String → Bool) : Bool :=
  match fv with
  | none => true
  | some s => if s == "" then true else test s

/-- Models `filterNormalizedRules(normalizedRules, filters)`. -/
def filterNormalizedRules (rules : List NormalizedRule) (filters : RuleFilters) :
    List NormalizedRule :=
  rules.filter fun rule =>
    jsFilterPass filters.severity (fun s => rule.metadata.severity == s) &&
    jsFilterPass filters.contractType (fun c => rule.metadata.contract_types.contains c) &&
    jsFilterPass filters.category (fun c => rule.metadata.category.getD "" == c) &&
    jsFilterPass filters.jurisdiction (fun j => rule.metadata.jurisdiction == j)

/-- Single-criterion filter object `{ contractType: c }` (absent fields are
`undefined` in JS, hence `none`). -/
def contractTypeFilter (c : Option String) : RuleFilters :=
  { severity := none, contractType := c, category := none, jurisdiction := none }

/-- Single-criterion filter object `{ severity: s }`. -/
def severityFilter (sv : Option String) : RuleFilters :=
  { severity := sv, contractType := none, category := none, jurisdiction := none }

/-- Single-criterion filter object `{ category: c }`. -/
def categoryFilter (c : Option String) : RuleFilters :=
  { severity := none, contractType := none, category := c, jurisdiction := none }

/-! ### Embeddings generator (embeddingsGenerator.js)

The OpenAI client is abstracted as explicit inputs: `embedOne` models one
`client.embeddings.create` call for a single text, `callProvider` models one
call for a batch of texts. The batch entry takes the client as an `Option`
(`none` models a missing API key, on which the source throws upfront before
looking at the texts); the single-text entry consults its input on every call,
so there a missing key is folded into the input returning `.error` with no
observable difference. The inter-chunk rate-limit delay has no observable
effect in this model. -/

/-- Models `generateEmbedding(text)`: one provider call on the trimmed text
(a missing API key is the input returning `.error`, indistinguishable here
from the upfront client-check throw since the input is always consulted). -/
def generateEmbedding (embedOne : String → Except String (List ℝ)) (text : String) :
    Except String (List ℝ) :=
  embedOne (jsTrim text)

/-- Chunk-by-chunk provider loop of `generateEmbeddingsBatch`, accumulating
`embeddings.push(...)` results; the first failing chunk aborts the whole batch. -/
def embedChunksGo (callProvider : List String → Except String (List (List ℝ))) :
    List (List String) → List (List ℝ) → Except String (List (List ℝ))
  | [], acc => .ok acc
  | c :: cs, acc =>
    match callProvider (c.map jsTrim) with
    | .ok vs => embedChunksGo callProvider cs (acc ++ vs)
    | .error e => .error e

/-- Models `generateEmbeddingsBatch(texts, batchSize)`: throws upfront when
the OpenAI client is absent (`if (!client) throw`, even for an empty text
list); otherwise partitions into chunks of at most `batchSize`, one provider
call per chunk in input order (each text trimmed), concatenating results. -/
def generateEmbeddingsBatch (client : Option (List String → Except String (List (List ℝ))))
    (texts : List String) (batchSize : Nat) : Except String (List (List ℝ)) :=
  match client with
  | none => .error "OpenAI API key not configured"
  | some callProvider => embedChunksGo callProvider (chunkList batchSize texts) []

/-- Models `rules.map((rule, index) => ({...rule, embedding: embeddings[index]}))`.
When the embeddings list is shorter (JS would attach `undefined`; impossible
when the provider returns one vector per input) the empty vector is attached. -/
def attachEmbeddings : List NormalizedRule → List (List ℝ) → List EmbeddedRule
  | [], _ => []
  | r :: rs, es =>
    { id := r.id, text := r.text, metadata := r.metadata, embedding := es.headD [] }
      :: attachEmbeddings rs es.tail

/-- Models `generateRuleEmbeddings(normalizedRules)` (batch size 100, the JS
default parameter value of `generateEmbeddingsBatch`). -/
def generateRuleEmbeddings (client : Option (List String → Except String (List (List ℝ))))
    (normalizedRules : List NormalizedRule) : Except String (List EmbeddedRule) :=
  match generateEmbeddingsBatch client (normalizedRules.map NormalizedRule.text) 100 with
  | .error e => .error e
  | .ok embeddings => .ok (attachEmbeddings normalizedRules embeddings)

/-- Models the accumulation loop of `cosineSimilarity` over the indices of
`vecA`; under the equal-length guard it visits exactly the pointwise pairs. -/
noncomputable def dotProduct : List ℝ → List ℝ → ℝ
  | a :: as, b :: bs => a * b + dotProduct as bs
  | _, _ => 0

/-- Models `cosineSimilarity(vecA, vecB)`: throws on a length mismatch,
returns 0 when either magnitude is zero, otherwise the normalized dot product. -/
noncomputable def cosineSimilarity (vecA vecB : List ℝ) : Except String ℝ :=
  if vecA.length ≠ vecB.length then .error "Vectors must have the same length"
  else if Real.sqrt (dotProduct vecA vecA) = 0 ∨ Real.sqrt (dotProduct vecB vecB) = 0 then
    .ok 0
  else
    .ok (dotProduct vecA vecB /
      (Real.sqrt (dotProduct vecA vecA) * Real.sqrt (dotProduct vecB vecB)))

/-- Models `rulesWithEmbeddings.map(rule => ({...rule, similarityScore: ...}))`:
scores every candidate left to right; the first throwing comparison aborts the
whole map (the exception propagates out of `semanticSearch`). -/
noncomputable def scoreRules (queryEmbedding : List ℝ) :
    List EmbeddedRule → Except String (List Scored)
  | [] => .ok []
  | r :: rs =>
    match cosineSimilarity queryEmbedding r.embedding with
    | .error e => .error e
    | .ok sc =>
      match scoreRules queryEmbedding rs with
      | .error e => .error e
      | .ok rest => .ok ({ rule := r, score := sc } :: rest)

/-- Stable insertion of an element into a list sorted by descending score,
placing it before the first element whose score it meets or exceeds. -/
noncomputable def insertByScore (x : Scored) : List Scored → List Scored
  | [] => [x]
  | y :: ys => if x.score ≥ y.score then x :: y :: ys else y :: insertByScore x ys

/-- Models `.sort((a, b) => b.similarityScore - a.similarityScore)`.
ES2019 `Array.prototype.sort` is stable, and a stable sort under a consistent
comparator has a unique result, which this insertion sort computes: descending
by score, ties kept in input order. -/
noncomputable def sortByScoreDesc : List Scored → List Scored
  | [] => []
  | x :: xs => insertByScore x (sortByScoreDesc xs)

/-- Models `semanticSearch(query, rulesWithEmbeddings, topK)`: embed the query,
score every candidate, sort descending, truncate with `slice(0, topK)`. -/
noncomputable def semanticSearch (embedOne : String → Except String (List ℝ))
    (query : String) (rulesWithEmbeddings : List EmbeddedRule) (topK : Int) :
    Except String (List ScoredRule) :=
  match generateEmbedding embedOne query with
  | .error e => .error e
  | .ok queryEmbedding =>
    match scoreRules queryEmbedding rulesWithEmbeddings with
    | .error e => .error e
    | .ok rulesWithScores =>
      .ok ((jsSliceEnd (sortByScoreDesc rulesWithScores) topK).map Scored.toScoredRule)

/-- Durable-cache TTL: 7 days in milliseconds (`maxAge` in `loadCachedEmbeddings`). -/
def durableCacheMaxAge : Int := 7 * 24 * 60 * 60 * 1000

/-- Models `loadCachedEmbeddings(version)`. The localStorage slot is an input:
`none` models no stored entry, `some (.error ())` a stored value on which
`JSON.parse` throws or whose decoded shape lacks the expected fields (any
throw inside the try, e.g. reading `.rules.length` off a malformed entry, is
caught and returns null), `some (.ok cd)` a well-formed decoded entry.
Cache misses: absent entry, decode failure, version mismatch, or age strictly
greater than the 7-day TTL. -/
def loadCachedEmbeddings (stored : Option (Except Unit CacheEntry)) (version : String)
    (now : Int) : Option (List EmbeddedRule) :=
  match stored with
  | none => none
  | some (.error _) => none
  | some (.ok cacheData) =>
    if cacheData.version ≠ version then none
    else if now - cacheData.timestamp > durableCacheMaxAge then none
    else some cacheData.rules

/-! ### Retrieval orchestrator (legalRulesRAG.js)

`cacheEmbeddings` (the write-through to localStorage) is best-effort and
swallowed in the source and has no effect on the orchestrator state, so it is
not modelled; no claim concerns it. -/

/-- Mutable state of the `LegalRulesRAG` singleton. -/
structure RAGState where
  rules : List RuleRecord
  normalizedRules : List NormalizedRule
  rulesWithEmbeddings : List EmbeddedRule
  isLoaded : Bool
  embeddingsReady : Bool
  metadata : Option MetaInfo

/-- Fresh orchestrator state (the constructor). -/
def initState : RAGState :=
  { rules := [], normalizedRules := [], rulesWithEmbeddings := [],
    isLoaded := false, embeddingsReady := false, metadata := none }

/-- Models the `generateEmbeddings()` method: on success stores the embedded
rules and sets `embeddingsReady`; a provider failure is caught, leaves
`embeddingsReady` false and returns false. -/
def RAGState.generateEmbeddings (s : RAGState)
    (client : Option (List String → Except String (List (List ℝ)))) : Bool × RAGState :=
  match generateRuleEmbeddings client s.normalizedRules with
  | .ok rwe => (true, { s with rulesWithEmbeddings := rwe, embeddingsReady := true })
  | .error _ => (false, { s with embeddingsReady := false })

/-- Models the `initialize(useCache)` method. `fetched`, `stored` and `now`
are the external inputs of the corpus fetch and the durable cache; `client`
is the embedding provider (`none` = API key absent). On load failure the method returns
false leaving the state untouched; otherwise it loads and normalizes the
rules, tries the version-keyed cache when `useCache` and the entry covers the
corpus, else regenerates embeddings — and returns true even when embedding
generation failed (`generateEmbeddings` catches its own error). The cache key
version is `this.metadata?.version`, with the callee default `"2.0"` applied
only when it is `undefined` (JS default-parameter semantics). -/
def RAGState.initRag (s : RAGState) (fetched : Except String (Option RulesData))
    (stored : Option (Except Unit CacheEntry)) (now : Int)
    (client : Option (List String → Except String (List (List ℝ))))
    (useCache : Bool) : Bool × RAGState :=
  let result := loadLegalRules fetched
  if !result.success then (false, s)
  else
    let s := { s with rules := result.rules, normalizedRules := normalizeAllRules result,
                      metadata := result.metadata, isLoaded := true }
    let cached := if useCache then
        loadCachedEmbeddings stored ((result.metadata.bind MetaInfo.version).getD "2.0") now
      else none
    match cached with
    | some c =>
      if c.length == s.normalizedRules.length then
        (true, { s with rulesWithEmbeddings := c, embeddingsReady := true })
      else (true, (s.generateEmbeddings client).2)
    | none => (true, (s.generateEmbeddings client).2)

/-- Models the `searchRules(query)` keyword search: empty result when no rules
are loaded or the query is falsy, otherwise the rules whose lowercased text or
id contains the lowercased query, in corpus order. -/
def RAGState.searchRules (s : RAGState) (query : String) : List NormalizedRule :=
  if !s.isLoaded || query == "" then []
  else
    let lowerQuery := jsToLowerCase query
    s.normalizedRules.filter fun rule =>
      jsIncludes (jsToLowerCase rule.text) lowerQuery ||
      jsIncludes (jsToLowerCase rule.id) lowerQuery

/-- Models `searchRelevantRules(query, topK)`: keyword fallback (sliced to
`topK`) when embeddings are not ready; otherwise semantic search, any thrown
error caught and turned into the empty list. -/
noncomputable def RAGState.searchRelevantRules (s : RAGState)
    (embedOne : String → Except String (List ℝ)) (query : String) (topK : Int) :
    List ScoredRule :=
  if !s.embeddingsReady then
    (jsSliceEnd (s.searchRules query) topK).map ScoredRule.ofNormalized
  else
    match semanticSearch embedOne query s.rulesWithEmbeddings topK with
    | .ok results => results
    | .error _ => []

/-- Filter context accepted by `getRelevantRules(context)`. -/
structure FilterContext where
  contractType : Option String
  severity : Option String
  category : Option String
deriving DecidableEq

/-- Models `getRelevantRules(context)`: empty when not loaded; otherwise the
normalized rules filtered by truthy context fields — contract type first, then
severity (defaulting to all high-severity rules followed by all
medium-severity rules when no severity is given), then category. -/
def RAGState.getRelevantRules (s : RAGState) (context : FilterContext) :
    List NormalizedRule :=
  if !s.isLoaded then []
  else
    let relevantRules := s.normalizedRules
    let relevantRules :=
      if truthy context.contractType then
        filterNormalizedRules relevantRules (contractTypeFilter context.contractType)
      else relevantRules
    let relevantRules :=
      if truthy context.severity then
        filterNormalizedRules relevantRules (severityFilter context.severity)
      else
        filterNormalizedRules relevantRules (severityFilter (some "high"))
          ++ filterNormalizedRules relevantRules (severityFilter (some "medium"))
    if truthy context.category then
      filterNormalizedRules relevantRules (categoryFilter context.category)
    else relevantRules

/-- Models `(rule.similarityScore * 100).toFixed(1)` of `buildSemanticContext`.
When `similarityScore` is absent (JS `undefined`, the keyword-fallback case),
`undefined * 100` is `NaN` and `NaN.toFixed(1)` is the string `"NaN"` per
ECMA-262. A present score is formatted by the abstract numeric formatter
`fmt`, which stands for `Number.prototype.toFixed(1)` (not modelled over ℝ). -/
noncomputable def percentString (fmt : ℝ → String) : Option ℝ → String
  | none => "NaN"
  | some score => fmt (score * 100)

/-- Lines pushed for one rule by the `relevantRules.forEach` of
`buildSemanticContext`. -/
noncomputable def ruleContextBlock (fmt : ℝ → String) (index : Nat) (rule : ScoredRule) :
    List String :=
  let relevancePercent := percentString fmt rule.similarityScore
  ["## Rule " ++ toString (index + 1) ++ ": " ++ rule.id
      ++ " (" ++ relevancePercent ++ "% relevant)",
   "", rule.text, "",
   "**Severity:** " ++ rule.metadata.severity,
   "**Applies to:** " ++ joinWith ", " rule.metadata.contract_types] ++
  (if truthy rule.metadata.category then
    ["**Category:** " ++ rule.metadata.category.getD ""] else []) ++
  ["", "---", ""]

/-- Models `buildSemanticContext(query, maxRules)`: empty string when the
search returns nothing, otherwise a fixed header followed by one labeled
block per result, all joined with newlines. -/
noncomputable def RAGState.buildSemanticContext (s : RAGState)
    (embedOne : String → Except String (List ℝ)) (fmt : ℝ → String)
    (query : String) (maxRules : Int) : String :=
  let relevantRules := s.searchRelevantRules embedOne query maxRules
  if relevantRules.length == 0 then ""
  else
    let contextParts :=
      ["# Legal Drafting Guidelines", "",
       "Jurisdiction: " ++ jsOr (s.metadata.bind MetaInfo.jurisdiction) "US",
       "Version: " ++ jsOr (s.metadata.bind MetaInfo.version) "1.0", "",
       "Apply the following legal style rules when reviewing or drafting contracts:", ""]
    let contextParts := contextParts ++
      (relevantRules.enum.map (fun p => ruleContextBlock fmt p.1 p.2)).flatten
    joinWith "\n" contextParts

/-! ### Helper lemmas -/

/-- Nonempty strings have positive length, so a positive length refutes emptiness. -/
theorem string_ne_empty_of_length_pos {s : String} (h : 0 < s.length) : s ≠ "" := by
  intro hc
  subst hc
  simp at h

/-- The first element of a joined list bounds the length of the join from below. -/
theorem joinWith_length_ge (sep a : String) (l : List String) :
    a.length ≤ (joinWith sep (a :: l)).length := by
  cases l with
  | nil => simp [joinWith]
  | cons b t => simp [joinWith, String.length_append]; omega

/-- Dot products of a vector with itself are nonnegative. -/
theorem dotProduct_self_nonneg (a : List ℝ) : 0 ≤ dotProduct a a := by
  induction a with
  | nil => simp [dotProduct]
  | cons x xs ih => simp only [dotProduct]; nlinarith [mul_self_nonneg x]

/-- Inductive step of the Cauchy-Schwarz inequality for list dot products. -/
theorem cauchy_schwarz_step (x y d A B : ℝ) (hA : 0 ≤ A) (hB : 0 ≤ B) (ih : d ^ 2 ≤ A * B) :
    (x * y + d) ^ 2 ≤ (x * x + A) * (y * y + B) := by
  rcases eq_or_lt_of_le hA with h | h
  · have hd : d = 0 := by nlinarith [sq_nonneg d]
    subst hd
    nlinarith [mul_nonneg (mul_self_nonneg x) hB, sq_nonneg (x * y)]
  · nlinarith [sq_nonneg (A * y - x * d),
      mul_nonneg (mul_self_nonneg x) (by nlinarith : (0:ℝ) ≤ A * B - d ^ 2),
      mul_nonneg hA (by nlinarith : (0:ℝ) ≤ A * B - d ^ 2)]

/-- Cauchy-Schwarz inequality for list dot products. -/
theorem dotProduct_sq_le (a b : List ℝ) :
    (dotProduct a b) ^ 2 ≤ dotProduct a a * dotProduct b b := by
  induction a generalizing b with
  | nil => simp [dotProduct]
  | cons x xs ih =>
    cases b with
    | nil => simp [dotProduct, mul_nonneg (dotProduct_self_nonneg (x :: xs))]
    | cons y ys =>
      simp only [dotProduct]
      exact cauchy_schwarz_step x y (dotProduct xs ys) (dotProduct xs xs) (dotProduct ys ys)
        (dotProduct_self_nonneg xs) (dotProduct_self_nonneg ys) (ih ys)

/-- A vector with a nonzero entry has positive self dot product. -/
theorem dotProduct_self_pos (a : List ℝ) (h : ∃ x ∈ a, x ≠ 0) : 0 < dotProduct a a := by
  induction a with
  | nil => simp at h
  | cons x xs ih =>
    simp only [dotProduct]
    rcases h with ⟨z, hz, hzne⟩
    rcases List.mem_cons.1 hz with rfl | hz'
    · nlinarith [mul_self_pos.2 hzne, dotProduct_self_nonneg xs]
    · nlinarith [ih ⟨z, hz', hzne⟩, mul_self_nonneg x]

/-- Insertion grows the list length by one. -/
theorem length_insertByScore (x : Scored) (l : List Scored) :
    (insertByScore x l).length = l.length + 1 := by
  induction l with
  | nil => simp [insertByScore]
  | cons y ys ih => simp only [insertByScore]; split_ifs <;> simp [ih]

/-- Membership in an insertion result. -/
theorem mem_insertByScore {x z : Scored} {l : List Scored} :
    z ∈ insertByScore x l ↔ z = x ∨ z ∈ l := by
  induction l with
  | nil => simp [insertByScore]
  | cons y ys ih =>
    simp only [insertByScore]
    split_ifs
    · simp
    · simp [ih]
      tauto

/-- Sorting preserves the length. -/
theorem length_sortByScoreDesc (l : List Scored) :
    (sortByScoreDesc l).length = l.length := by
  induction l with
  | nil => simp [sortByScoreDesc]
  | cons x xs ih => simp [sortByScoreDesc, length_insertByScore, ih]

/-- Insertion into a descending-by-score list keeps it descending. -/
theorem pairwise_insertByScore (x : Scored) (l : List Scored)
    (hl : l.Pairwise (fun p q => q.score ≤ p.score)) :
    (insertByScore x l).Pairwise (fun p q => q.score ≤ p.score) := by
  induction l with
  | nil => simp [insertByScore]
  | cons y ys ih =>
    rcases List.pairwise_cons.1 hl with ⟨hy, hys⟩
    simp only [insertByScore]
    split_ifs with hxy
    · refine List.Pairwise.cons ?_ hl
      intro z hz
      rcases List.mem_cons.1 hz with rfl | hz'
      · exact hxy
      · exact le_trans (hy z hz') hxy
    · refine List.Pairwise.cons ?_ (ih hys)
      intro z hz
      rcases mem_insertByScore.1 hz with rfl | hz'
      · exact le_of_not_le hxy
      · exact hy z hz'

/-- The sort output is descending by score. -/
theorem pairwise_sortByScoreDesc (l : List Scored) :
    (sortByScoreDesc l).Pairwise (fun p q => q.score ≤ p.score) := by
  induction l with
  | nil => simp [sortByScoreDesc]
  | cons x xs ih => exact pairwise_insertByScore x _ ih

/-- Filtering an insertion by an exact score: the inserted element lands in
front of the equal-score group, everything else keeps its place. -/
theorem filter_insertByScore (x : Scored) (l : List Scored) (s : ℝ) :
    (insertByScore x l).filter (fun z => decide (z.score = s)) =
      if x.score = s then x :: l.filter (fun z => decide (z.score = s))
      else l.filter (fun z => decide (z.score = s)) := by
  induction l with
  | nil =>
    simp only [insertByScore]
    by_cases hxs : x.score = s <;> simp [List.filter_cons, hxs]
  | cons y ys ih =>
    by_cases hxy : x.score ≥ y.score
    · simp only [insertByScore, if_pos hxy]
      by_cases hxs : x.score = s <;> simp [List.filter_cons, hxs]
    · simp only [insertByScore, if_neg hxy]
      by_cases hys' : y.score = s
      · have hxs : ¬x.score = s := by
          intro h
          exact hxy (by rw [h, hys'])
        simp [List.filter_cons, hys', hxs, ih]
      · simp only [List.filter_cons, ih]
        by_cases hxs : x.score = s <;> simp [hxs, hys', List.filter_cons]

/-- Stability of the sort: the elements of any fixed score keep their input
order (first-seen wins among ties). -/
theorem filter_sortByScoreDesc (l : List Scored) (s : ℝ) :
    (sortByScoreDesc l).filter (fun z => decide (z.score = s)) =
      l.filter (fun z => decide (z.score = s)) := by
  induction l with
  | nil => simp [sortByScoreDesc]
  | cons x xs ih =>
    simp only [sortByScoreDesc, filter_insertByScore, ih, List.filter_cons]
    by_cases hxs : x.score = s <;> simp [hxs]

/-- Length of a JS slice from index 0 to an integer end index. -/
theorem length_jsSliceEnd (l : List α) (k : Int) :
    ((jsSliceEnd l k).length : Int) =
      (if k < 0 then (l.length : Int) + k else min k (l.length : Int)).toNat := by
  simp only [jsSliceEnd, List.length_take]
  split_ifs with h <;> omega

/-- A length mismatch makes `cosineSimilarity` throw. -/
theorem cosineSimilarity_mismatch {a b : List ℝ} (h : a.length ≠ b.length) :
    cosineSimilarity a b = .error "Vectors must have the same length" := by
  rw [cosineSimilarity, if_pos h]

/-- With matching lengths `cosineSimilarity` returns a value. -/
theorem cosineSimilarity_ok {a b : List ℝ} (h : a.length = b.length) :
    ∃ v, cosineSimilarity a b = .ok v := by
  rw [cosineSimilarity, if_neg (by omega)]
  split_ifs <;> exact ⟨_, rfl⟩

/-- Scoring succeeds when every candidate has the query dimension, and the
scored list carries the candidates in input order. -/
theorem scoreRules_ok {qe : List ℝ} {rules : List EmbeddedRule}
    (h : ∀ r ∈ rules, r.embedding.length = qe.length) :
    ∃ scored, scoreRules qe rules = .ok scored ∧ scored.map Scored.rule = rules := by
  induction rules with
  | nil => exact ⟨[], rfl, rfl⟩
  | cons r rs ih =>
    obtain ⟨v, hv⟩ := cosineSimilarity_ok (a := qe) (b := r.embedding)
      (h r (List.mem_cons_self r rs)).symm
    obtain ⟨scored, hs, hmap⟩ := ih (fun r' hr' => h r' (List.mem_cons_of_mem r hr'))
    exact ⟨{ rule := r, score := v } :: scored, by simp [scoreRules, hv, hs], by simp [hmap]⟩

/-- Scoring throws as soon as some candidate has a mismatched dimension. -/
theorem scoreRules_error {qe : List ℝ} {rules : List EmbeddedRule}
    (h : ∃ r ∈ rules, r.embedding.length ≠ qe.length) :
    ∃ e, scoreRules qe rules = .error e := by
  induction rules with
  | nil => simp at h
  | cons r rs ih =>
    by_cases hr : r.embedding.length = qe.length
    · obtain ⟨v, hv⟩ := cosineSimilarity_ok (a := qe) (b := r.embedding) hr.symm
      have h' : ∃ r' ∈ rs, r'.embedding.length ≠ qe.length := by
        rcases h with ⟨r', hr', hne⟩
        rcases List.mem_cons.1 hr' with rfl | hmem
        · exact absurd hr hne
        · exact ⟨r', hmem, hne⟩
      obtain ⟨e, he⟩ := ih h'
      exact ⟨e, by simp [scoreRules, hv, he]⟩
    · refine ⟨"Vectors must have the same length", ?_⟩
      have := cosineSimilarity_mismatch (a := qe) (b := r.embedding) (by omega)
      simp [scoreRules, this]

/-- Chunking then flattening restores the input list. -/
theorem chunkList_flatten (bs : Nat) (l : List α) : (chunkList bs l).flatten = l := by
  induction l using chunkList.induct bs with
  | case1 => simp [chunkList]
  | case2 x xs ih => simp [chunkList, ih]

/-- Each chunk is nonempty and holds at most `bs` elements (for `bs ≥ 1`). -/
theorem chunkList_sizes (bs : Nat) (hbs : 1 ≤ bs) (l : List α) :
    ∀ c ∈ chunkList bs l, c ≠ [] ∧ c.length ≤ bs := by
  induction l using chunkList.induct bs with
  | case1 => simp [chunkList]
  | case2 x xs ih =>
    intro c hc
    rw [chunkList] at hc
    rcases List.mem_cons.1 hc with rfl | hc'
    · refine ⟨by simp, ?_⟩
      simp [List.length_take]
      omega
    · exact ih c hc'

/-- The chunk loop under a per-text provider concatenates the per-text vectors. -/
theorem embedChunksGo_mapProvider (f : String → List ℝ) (chunks : List (List String))
    (acc : List (List ℝ)) :
    embedChunksGo (fun inp => .ok (inp.map f)) chunks acc =
      .ok (acc ++ (chunks.map (fun c => c.map (fun t => f (jsTrim t)))).flatten) := by
  induction chunks generalizing acc with
  | nil => simp [embedChunksGo]
  | cons c cs ih => simp [embedChunksGo, ih, List.map_map, Function.comp_def]

/-- Batch embedding under a present per-text provider returns one vector per
input text, in input order. -/
theorem generateEmbeddingsBatch_mapProvider (f : String → List ℝ) (texts : List String)
    (bs : Nat) :
    generateEmbeddingsBatch (some (fun inp => .ok (inp.map f))) texts bs =
      .ok (texts.map (fun t => f (jsTrim t))) := by
  show embedChunksGo (fun inp => .ok (inp.map f)) (chunkList bs texts) [] = _
  rw [embedChunksGo_mapProvider]
  rw [← List.map_flatten, chunkList_flatten]
  simp

/-- Attaching a list of embeddings derived from the rules themselves.  -/
theorem attachEmbeddings_map (g : NormalizedRule → List ℝ) (rules : List NormalizedRule) :
    attachEmbeddings rules (rules.map g) =
      rules.map (fun r =>
        { id := r.id, text := r.text, metadata := r.metadata, embedding := g r }) := by
  induction rules with
  | nil => simp [attachEmbeddings]
  | cons r rs ih => simp [attachEmbeddings, ih]

/-- Rule embedding under a per-text provider attaches to each rule the vector
of its own (trimmed) text. -/
theorem generateRuleEmbeddings_mapProvider (f : String → List ℝ)
    (rules : List NormalizedRule) :
    generateRuleEmbeddings (some (fun inp => .ok (inp.map f))) rules =
      .ok (rules.map (fun r =>
        { id := r.id, text := r.text, metadata := r.metadata,
          embedding := f (jsTrim r.text) })) := by
  rw [generateRuleEmbeddings, generateEmbeddingsBatch_mapProvider]
  show Except.ok
      (attachEmbeddings rules ((rules.map NormalizedRule.text).map (fun t => f (jsTrim t)))) = _
  rw [List.map_map]
  exact congrArg Except.ok (attachEmbeddings_map _ rules)

/-- In a state with no rules loaded and no embeddings ready,
`searchRelevantRules` returns the empty list for every query and every bound. -/
theorem searchRelevantRules_uninit (s : RAGState)
    (oc : String → Except String (List ℝ)) (q : String) (k : Int)
    (h1 : s.isLoaded = false) (h2 : s.embeddingsReady = false) :
    s.searchRelevantRules oc q k = [] := by
  simp [RAGState.searchRelevantRules, h2, RAGState.searchRules, h1, jsSliceEnd]

/-! ### Claim C4 -/

/-- C4: for all vectors of equal length, cosineSimilarity lies in the interval
from -1 to 1; cosineSimilarity of a nonzero vector with itself is 1; and when
either vector has zero L2 norm (zero self dot product) the result is 0 rather
than a failure or NaN. -/
theorem claim_C4 :
    (∀ a b : List ℝ, a.length = b.length →
      ∃ v, cosineSimilarity a b = .ok v ∧ -1 ≤ v ∧ v ≤ 1) ∧
    (∀ a : List ℝ, (∃ x ∈ a, x ≠ 0) → cosineSimilarity a a = .ok 1) ∧
    (∀ a b : List ℝ, a.length = b.length →
      dotProduct a a = 0 ∨ dotProduct b b = 0 → cosineSimilarity a b = .ok 0) := by
  refine ⟨?_, ?_, ?_⟩
  · intro a b h
    by_cases hz : Real.sqrt (dotProduct a a) = 0 ∨ Real.sqrt (dotProduct b b) = 0
    · refine ⟨0, ?_, by norm_num, by norm_num⟩
      rw [cosineSimilarity, if_neg (by omega), if_pos hz]
    · push_neg at hz
      obtain ⟨ha, hb⟩ := hz
      have hA := dotProduct_self_nonneg a
      have hB := dotProduct_self_nonneg b
      have hsa : 0 < Real.sqrt (dotProduct a a) :=
        lt_of_le_of_ne (Real.sqrt_nonneg _) (Ne.symm ha)
      have hsb : 0 < Real.sqrt (dotProduct b b) :=
        lt_of_le_of_ne (Real.sqrt_nonneg _) (Ne.symm hb)
      have habs : |dotProduct a b| ≤
          Real.sqrt (dotProduct a a) * Real.sqrt (dotProduct b b) := by
        rw [← Real.sqrt_sq_eq_abs, ← Real.sqrt_mul hA]
        exact Real.sqrt_le_sqrt (dotProduct_sq_le a b)
      have hpos : 0 < Real.sqrt (dotProduct a a) * Real.sqrt (dotProduct b b) :=
        mul_pos hsa hsb
      have hq : |dotProduct a b /
          (Real.sqrt (dotProduct a a) * Real.sqrt (dotProduct b b))| ≤ 1 := by
        rw [abs_div, abs_of_pos hpos]
        exact div_le_one_of_le₀ habs (le_of_lt hpos)
      refine ⟨_, ?_, (abs_le.1 hq).1, (abs_le.1 hq).2⟩
      rw [cosineSimilarity, if_neg (by omega), if_neg (by push_neg; exact ⟨ha, hb⟩)]
  · intro a ha
    have hpos := dotProduct_self_pos a ha
    have hs : 0 < Real.sqrt (dotProduct a a) := Real.sqrt_pos.2 hpos
    rw [cosineSimilarity, if_neg (by omega),
      if_neg (by push_neg; exact ⟨ne_of_gt hs, ne_of_gt hs⟩)]
    rw [Real.mul_self_sqrt (dotProduct_self_nonneg a), div_self (ne_of_gt hpos)]
  · intro a b h hd
    rw [cosineSimilarity, if_neg (by omega), if_pos ?_]
    rcases hd with hd | hd
    · exact Or.inl (by rw [hd, Real.sqrt_zero])
    · exact Or.inr (by rw [hd, Real.sqrt_zero])

/-- Witness for C4 at concrete vectors. -/
theorem claim_C4_witness :
    (([1] : List ℝ).length = ([1] : List ℝ).length ∧
      ∃ v, cosineSimilarity [1] [1] = .ok v ∧ -1 ≤ v ∧ v ≤ 1) ∧
    ((∃ x ∈ ([1] : List ℝ), x ≠ 0) ∧ cosineSimilarity [1] [1] = .ok 1) ∧
    (([0] : List ℝ).length = ([2] : List ℝ).length ∧
      (dotProduct [(0 : ℝ)] [0] = 0 ∨ dotProduct [(2 : ℝ)] [2] = 0) ∧
      cosineSimilarity [0] [2] = .ok 0) := by
  have hx : ∃ x ∈ ([1] : List ℝ), x ≠ 0 := ⟨1, by simp, one_ne_zero⟩
  have hd : dotProduct [(0 : ℝ)] [0] = 0 := by simp [dotProduct]
  exact ⟨⟨rfl, claim_C4.1 [1] [1] rfl⟩, ⟨hx, claim_C4.2.1 [1] hx⟩,
    ⟨rfl, Or.inl hd, claim_C4.2.2 [0] [2] rfl (Or.inl hd)⟩⟩

/-! ### Claim C5 -/

/-- C5: for every input list and every batch size of at least 1, batch
embedding partitions the inputs into consecutive chunks of at most batchSize
(nonempty, flattening back to the input), and under a present provider
returning one vector per input text it returns exactly one vector per input
in input order; likewise generateRuleEmbeddings attaches to each rule the
vector of its own text, in order. -/
theorem claim_C5 (f : String → List ℝ) (texts : List String) (bs : Nat) (hbs : 1 ≤ bs) :
    ((chunkList bs texts).flatten = texts ∧
      ∀ c ∈ chunkList bs texts, c ≠ [] ∧ c.length ≤ bs) ∧
    generateEmbeddingsBatch (some (fun inp => .ok (inp.map f))) texts bs =
      .ok (texts.map (fun t => f (jsTrim t))) ∧
    ∀ rules : List NormalizedRule,
      generateRuleEmbeddings (some (fun inp => .ok (inp.map f))) rules =
        .ok (rules.map (fun r =>
          { id := r.id, text := r.text, metadata := r.metadata,
            embedding := f (jsTrim r.text) })) :=
  ⟨⟨chunkList_flatten bs texts, chunkList_sizes bs hbs texts⟩,
    generateEmbeddingsBatch_mapProvider f texts bs,
    fun rules => generateRuleEmbeddings_mapProvider f rules⟩

/-- Witness for C5: two texts, batch size 2, constant present provider. -/
theorem claim_C5_witness :
    1 ≤ 2 ∧
    generateEmbeddingsBatch (some (fun inp => .ok (inp.map (fun _ => ([] : List ℝ)))))
        ["a", "b"] 2 =
      .ok [[], []] := by
  refine ⟨by norm_num, ?_⟩
  have h := (claim_C5 (fun _ => ([] : List ℝ)) ["a", "b"] 2 (by norm_num)).2.1
  simpa using h

/-! ### Claim C6 -/

/-- C6: loading the durable embedding cache never throws and returns null
exactly when there is no stored entry, the stored value fails to decode, the
version mismatches, or the age strictly exceeds the 7-day TTL; an entry whose
age equals the TTL is still valid. -/
theorem claim_C6 (stored : Option (Except Unit CacheEntry)) (version : String) (now : Int) :
    (loadCachedEmbeddings stored version now = none ↔
      stored = none ∨ stored = some (.error ()) ∨
      ∃ cd, stored = some (.ok cd) ∧
        (cd.version ≠ version ∨ now - cd.timestamp > durableCacheMaxAge)) ∧
    (∀ cd, stored = some (.ok cd) → cd.version = version →
      now - cd.timestamp = durableCacheMaxAge →
      loadCachedEmbeddings stored version now = some cd.rules) := by
  constructor
  · match stored with
    | none => simp [loadCachedEmbeddings]
    | some (.error u) => cases u; simp [loadCachedEmbeddings]
    | some (.ok cd) =>
      simp only [loadCachedEmbeddings]
      split_ifs with h1 h2
      · simp only [true_iff]
        exact Or.inr (Or.inr ⟨cd, rfl, Or.inl h1⟩)
      · simp only [true_iff]
        exact Or.inr (Or.inr ⟨cd, rfl, Or.inr h2⟩)
      · constructor
        · intro h
          simp at h
        · rintro (h | h | ⟨cd', hcd', hbad⟩)
          · simp at h
          · simp at h
          · have hcd : cd' = cd := by
              have h' := Option.some.inj hcd'
              exact (Except.ok.inj h').symm
            subst hcd
            rcases hbad with hb | hb
            · exact absurd hb h1
            · exact absurd hb h2
  · intro cd hcd hv ht
    rw [hcd]
    simp [loadCachedEmbeddings, hv, ht]

/-- Sample cache entry used by the C6 witness. -/
def sampleCacheEntry : CacheEntry :=
  { version := "2.0", timestamp := 0, rules := [] }

/-- Witness for C6 at the exact TTL boundary. -/
theorem claim_C6_witness :
    ((some (Except.ok sampleCacheEntry) : Option (Except Unit CacheEntry)) =
        some (Except.ok sampleCacheEntry) ∧
      sampleCacheEntry.version = "2.0" ∧
      (604800000 : Int) - sampleCacheEntry.timestamp = durableCacheMaxAge) ∧
    loadCachedEmbeddings (some (.ok sampleCacheEntry)) "2.0" 604800000 = some [] := by
  have h := (claim_C6 (some (.ok sampleCacheEntry)) "2.0" 604800000).2 sampleCacheEntry rfl rfl
    (by norm_num [sampleCacheEntry, durableCacheMaxAge])
  exact ⟨⟨rfl, rfl, by norm_num [sampleCacheEntry, durableCacheMaxAge]⟩, h⟩

/-! ### Claim C3 -/

/-- Sample metadata shared by the concrete rules used in counterexamples and
witnesses. -/
def sampleMeta : RuleMetadata :=
  { jurisdiction := "US", severity := "high", contract_types := ["NDA"],
    category := none, reference := none }

/-- First concrete embedded rule (zero-dimensional embedding). -/
def ce3rule1 : EmbeddedRule :=
  { id := "R1", text := "t1", metadata := sampleMeta, embedding := [] }

/-- Second concrete embedded rule (zero-dimensional embedding). -/
def ce3rule2 : EmbeddedRule :=
  { id := "R2", text := "t2", metadata := sampleMeta, embedding := [] }

/-- Counterexample to C3 as stated: the claim says `k <= 0` returns an empty
list, but `slice(0, -1)` on two candidates returns one candidate, not zero. -/
theorem claim_C3_counterexample :
    semanticSearch (fun _ => .ok ([] : List ℝ)) "q" [ce3rule1, ce3rule2] (-1) =
      .ok [Scored.toScoredRule { rule := ce3rule1, score := 0 }] ∧
    Except.ok [Scored.toScoredRule { rule := ce3rule1, score := 0 }] ≠
      (.ok ([] : List ScoredRule) : Except String (List ScoredRule)) := by
  constructor
  · simp [semanticSearch, generateEmbedding, scoreRules, cosineSimilarity, dotProduct,
      Real.sqrt_zero, sortByScoreDesc, insertByScore, jsSliceEnd, le_refl, ce3rule1, ce3rule2]
  · simp

/-- C3 (amended): for every candidate list whose embeddings all have the query
dimension and every integer k, top-K selection succeeds; the result has length
min(k, n) for k >= 0 and max(n + k, 0) for k < 0 (JS `slice(0, k)` removes the
last |k| elements for negative k, rather than returning the empty list);
scores are non-increasing; and candidates with equal scores keep their input
order (first-seen wins, shown by score-class filter stability of the sort). -/
theorem claim_C3_amended (embedOne : String → Except String (List ℝ)) (query : String)
    (qe : List ℝ) (rules : List EmbeddedRule) (k : Int)
    (hq : embedOne (jsTrim query) = .ok qe)
    (hdim : ∀ r ∈ rules, r.embedding.length = qe.length) :
    ∃ scored res,
      scoreRules qe rules = .ok scored ∧
      scored.map Scored.rule = rules ∧
      semanticSearch embedOne query rules k = .ok res ∧
      res = (jsSliceEnd (sortByScoreDesc scored) k).map Scored.toScoredRule ∧
      (res.length : Int) =
        (if k < 0 then (rules.length : Int) + k else min k (rules.length : Int)).toNat ∧
      res.Pairwise (fun a b => b.similarityScore.getD 0 ≤ a.similarityScore.getD 0) ∧
      ∀ s : ℝ, (sortByScoreDesc scored).filter (fun z => decide (z.score = s)) =
        scored.filter (fun z => decide (z.score = s)) := by
  obtain ⟨scored, hs, hmap⟩ := scoreRules_ok hdim
  have hlen : scored.length = rules.length := by
    rw [← hmap, List.length_map]
  refine ⟨scored, _, hs, hmap, ?_, rfl, ?_, ?_, fun s => filter_sortByScoreDesc scored s⟩
  · simp [semanticSearch, generateEmbedding, hq, hs]
  · have h := length_jsSliceEnd (sortByScoreDesc scored) k
    rw [length_sortByScoreDesc, hlen] at h
    rw [List.length_map]
    exact h
  · have hsl : (jsSliceEnd (sortByScoreDesc scored) k).Sublist (sortByScoreDesc scored) := by
      rw [jsSliceEnd]
      exact List.take_sublist _ _
    have hp : (jsSliceEnd (sortByScoreDesc scored) k).Pairwise (fun p q => q.score ≤ p.score) :=
      List.Pairwise.sublist hsl (pairwise_sortByScoreDesc scored)
    exact List.pairwise_map.2 (hp.imp (fun h => h))

/-- Witness for C3 at one concrete candidate and k = 5. -/
theorem claim_C3_witness :
    ((fun _ : String => (Except.ok ([] : List ℝ) : Except String (List ℝ))) (jsTrim "q") =
      .ok ([] : List ℝ)) ∧
    (∀ r ∈ [ce3rule1], r.embedding.length = ([] : List ℝ).length) ∧
    ∃ scored res,
      scoreRules [] [ce3rule1] = .ok scored ∧
      scored.map Scored.rule = [ce3rule1] ∧
      semanticSearch (fun _ => .ok ([] : List ℝ)) "q" [ce3rule1] 5 = .ok res ∧
      res = (jsSliceEnd (sortByScoreDesc scored) 5).map Scored.toScoredRule ∧
      (res.length : Int) =
        (if (5 : Int) < 0 then (([ce3rule1] : List EmbeddedRule).length : Int) + 5
          else min 5 (([ce3rule1] : List EmbeddedRule).length : Int)).toNat ∧
      res.Pairwise (fun a b => b.similarityScore.getD 0 ≤ a.similarityScore.getD 0) ∧
      ∀ s : ℝ, (sortByScoreDesc scored).filter (fun z => decide (z.score = s)) =
        scored.filter (fun z => decide (z.score = s)) :=
  ⟨rfl, by simp [ce3rule1],
    claim_C3_amended (fun _ => .ok ([] : List ℝ)) "q" [] [ce3rule1] 5 rfl (by simp [ce3rule1])⟩

/-! ### Claim C9 -/

/-- Embedded rule whose dimension matches the (empty) query embedding. -/
def ce9good : EmbeddedRule :=
  { id := "G", text := "tg", metadata := sampleMeta, embedding := [] }

/-- Embedded rule whose dimension mismatches the query embedding. -/
def ce9bad : EmbeddedRule :=
  { id := "B", text := "tb", metadata := sampleMeta, embedding := [0] }

/-- Orchestrator state holding one matching and one mismatched candidate. -/
def ce9state : RAGState :=
  { rules := [], normalizedRules := [], rulesWithEmbeddings := [ce9good, ce9bad],
    isLoaded := true, embeddingsReady := true, metadata := none }

/-- Counterexample to C9 as stated: with one matching-dimension candidate and
one mismatched candidate, the whole ranking collapses to the empty list
(the mismatched comparison throws and `searchRelevantRules` catches it),
even though the matching candidate alone is scorable. -/
theorem claim_C9_counterexample :
    ce9state.searchRelevantRules (fun _ => .ok ([] : List ℝ)) "q" 5 = [] ∧
    scoreRules [] [ce9good] = .ok [{ rule := ce9good, score := 0 }] := by
  constructor
  · simp [RAGState.searchRelevantRules, ce9state, semanticSearch, generateEmbedding,
      scoreRules, cosineSimilarity, dotProduct, Real.sqrt_zero, ce9good, ce9bad]
  · simp [scoreRules, cosineSimilarity, dotProduct, Real.sqrt_zero, ce9good]

/-- C9 (amended): when some candidate embedding length differs from the query
embedding length, the scoring map throws, `semanticSearch` propagates the
error, and `searchRelevantRules` catches it and returns the empty list: the
whole ranking is discarded, not just the offending candidate. -/
theorem claim_C9_amended (s : RAGState) (embedOne : String → Except String (List ℝ))
    (query : String) (k : Int) (qe : List ℝ)
    (hready : s.embeddingsReady = true)
    (hq : embedOne (jsTrim query) = .ok qe)
    (hmis : ∃ r ∈ s.rulesWithEmbeddings, r.embedding.length ≠ qe.length) :
    s.searchRelevantRules embedOne query k = [] := by
  obtain ⟨e, he⟩ := scoreRules_error hmis
  simp [RAGState.searchRelevantRules, hready, semanticSearch, generateEmbedding, hq, he]

/-- Witness for C9 at the concrete mixed state. -/
theorem claim_C9_witness :
    ce9state.embeddingsReady = true ∧
    ((fun _ : String => (Except.ok ([] : List ℝ) : Except String (List ℝ))) (jsTrim "q") =
      .ok ([] : List ℝ)) ∧
    (∃ r ∈ ce9state.rulesWithEmbeddings, r.embedding.length ≠ ([] : List ℝ).length) ∧
    ce9state.searchRelevantRules (fun _ => .ok ([] : List ℝ)) "q" 7 = [] := by
  have hmis : ∃ r ∈ ce9state.rulesWithEmbeddings, r.embedding.length ≠ ([] : List ℝ).length :=
    ⟨ce9bad, by simp [ce9state], by simp [ce9bad]⟩
  exact ⟨rfl, rfl, hmis,
    claim_C9_amended ce9state (fun _ => .ok ([] : List ℝ)) "q" 7 [] rfl rfl hmis⟩

/-! ### Claim C1 -/

/-- Whether `validateRule` reports no errors does not depend on the index
(the index only enters the message prefix). -/
theorem validateRule_eq_nil_iff (i j : Nat) (r : RuleRecord) :
    validateRule i r = [] ↔ validateRule j r = [] := by
  cases h : r.contract_types <;> simp [validateRule, h]

/-- The validation loop reports no errors iff every record is valid. -/
theorem validateLoop_errors_nil_iff (i : Nat) (rs : List RuleRecord) :
    (validateLoop i rs).2 = [] ↔ ∀ r ∈ rs, validateRule 0 r = [] := by
  induction rs generalizing i with
  | nil => simp [validateLoop]
  | cons r rest ih =>
    simp only [validateLoop]
    by_cases hv : (validateRule i r).isEmpty
    · have hv' : validateRule i r = [] := by
        cases h : validateRule i r with
        | nil => rfl
        | cons a as => rw [h] at hv; exact absurd hv (by simp)
      rw [if_pos hv, List.forall_mem_cons]
      constructor
      · intro h
        exact ⟨(validateRule_eq_nil_iff 0 i r).2 hv', (ih (i + 1)).1 h⟩
      · rintro ⟨-, h2⟩
        exact (ih (i + 1)).2 h2
    · have hv' : validateRule i r ≠ [] := by
        intro hc
        rw [hc] at hv
        exact hv rfl
      rw [if_neg hv, List.forall_mem_cons]
      constructor
      · intro h
        exact absurd (List.append_eq_nil.1 h).1 hv'
      · rintro ⟨h1, -⟩
        exact absurd ((validateRule_eq_nil_iff i 0 r).2 h1) hv'

/-- Characterization of loader failure: `loadLegalRules` reports failure
exactly on a hard fetch/parse error, a missing or null dataset, a missing
rules array, or at least one invalid record. -/
theorem loadLegalRules_success_false_iff (fetched : Except String (Option RulesData)) :
    (loadLegalRules fetched).success = false ↔
      (∃ e, fetched = .error e) ∨ fetched = .ok none ∨
      ∃ d, fetched = .ok (some d) ∧
        (d.rules = none ∨
          ∃ rs, d.rules = some rs ∧ ∃ r ∈ rs, validateRule 0 r ≠ []) := by
  match fetched with
  | .error e => simp [loadLegalRules]
  | .ok none => simp [loadLegalRules]
  | .ok (some d) =>
    cases hr : d.rules with
    | none => simp [loadLegalRules, hr]
    | some rs =>
      simp only [loadLegalRules, hr]
      constructor
      · intro h
        have hne : (validateLoop 0 rs).2 ≠ [] := by
          intro hc
          rw [hc] at h
          simp at h
        refine Or.inr (Or.inr ⟨d, rfl, Or.inr ⟨rs, hr, ?_⟩⟩)
        by_contra hno
        push_neg at hno
        exact hne ((validateLoop_errors_nil_iff 0 rs).2 hno)
      · rintro (⟨e, he⟩ | he | ⟨d', hd', hcase⟩)
        · exact absurd he (by simp)
        · exact absurd he (by simp)
        · obtain rfl : d' = d := (Option.some.inj (Except.ok.inj hd')).symm
          rcases hcase with hnone | ⟨rs', hrs', r, hrmem, hrne⟩
          · rw [hr] at hnone
            exact Option.noConfusion hnone
          · rw [hr] at hrs'
            obtain rfl : rs = rs' := Option.some.inj hrs'
            have hne : (validateLoop 0 rs).2 ≠ [] := by
              intro hc
              exact hrne ((validateLoop_errors_nil_iff 0 rs).1 hc r hrmem)
            cases hl : (validateLoop 0 rs).2 with
            | nil => exact absurd hl hne
            | cons a as => rfl

/-- Dataset with a present but empty rules array, used against C1. -/
def ce1data : RulesData :=
  { rules := some [],
    metadata := some { jurisdiction := some "US", version := some "2.0" } }

/-- Counterexample to C1 as stated: an empty rules array yields zero valid
rules, yet the loader reports success and `initialize` returns true and marks
the orchestrator loaded — here even with the API key absent (the upfront
client check throws, `generateEmbeddings` catches it and only leaves
`embeddingsReady` false). -/
theorem claim_C1_counterexample :
    (loadLegalRules (.ok (some ce1data))).success = true ∧
    (loadLegalRules (.ok (some ce1data))).rules = [] ∧
    (initState.initRag (.ok (some ce1data)) none 0 none true).1
      = true ∧
    (initState.initRag (.ok (some ce1data)) none 0 none true).2.isLoaded
      = true := by
  refine ⟨rfl, rfl, ?_, ?_⟩ <;>
    simp [RAGState.initRag, loadLegalRules, validateLoop, normalizeAllRules,
      loadCachedEmbeddings, RAGState.generateEmbeddings, generateRuleEmbeddings,
      generateEmbeddingsBatch, chunkList, embedChunksGo, initState, ce1data]

/-- C1 (amended): the loader reports failure exactly on a hard load error, a
missing or null dataset, a missing rules array, or at least one invalid
record — in particular on a non-empty corpus whose records are all invalid,
so zero valid rules survive; an empty rules array, by contrast, loads
successfully (see the counterexample). Whenever the loader reports failure,
`initialize` returns false and leaves the state untouched; in an untouched
uninitialized state (isLoaded and embeddingsReady false) a subsequent
`searchRelevantRules` call returns the empty list without throwing. -/
theorem claim_C1_amended (fetched : Except String (Option RulesData))
    (stored : Option (Except Unit CacheEntry)) (now : Int)
    (client : Option (List String → Except String (List (List ℝ)))) (useCache : Bool)
    (oc : String → Except String (List ℝ)) (q : String) (k : Int) :
    ((loadLegalRules fetched).success = false ↔
      (∃ e, fetched = .error e) ∨ fetched = .ok none ∨
      ∃ d, fetched = .ok (some d) ∧
        (d.rules = none ∨
          ∃ rs, d.rules = some rs ∧ ∃ r ∈ rs, validateRule 0 r ≠ [])) ∧
    ((loadLegalRules fetched).success = false →
      ∀ s : RAGState, s.initRag fetched stored now client useCache = (false, s)) ∧
    (∀ s : RAGState, s.isLoaded = false → s.embeddingsReady = false →
      s.searchRelevantRules oc q k = []) := by
  refine ⟨loadLegalRules_success_false_iff fetched, ?_,
    fun s h1 h2 => searchRelevantRules_uninit s oc q k h1 h2⟩
  intro hf s
  rw [RAGState.initRag, hf]
  rfl

/-- Fully invalid rule record (all required fields missing). -/
def ce1badRule : RuleRecord :=
  { rule_id := "", category := none, rule := "", bad_example := none,
    good_example := none, explanation := none, severity := "",
    contract_types := none, jurisdiction := none, reference := none }

/-- Dataset whose single record fails validation. -/
def ce1badData : RulesData :=
  { rules := some [ce1badRule], metadata := none }

/-- Witness for the amended C1 at a one-record, all-invalid corpus. -/
theorem claim_C1_witness :
    (loadLegalRules (.ok (some ce1badData))).success = false ∧
    initState.isLoaded = false ∧ initState.embeddingsReady = false ∧
    (initState.initRag (.ok (some ce1badData)) none 0 (some (fun _ => .ok [])) true
      = (false, initState)) ∧
    initState.searchRelevantRules (fun _ => .ok []) "x" 3 = [] := by
  have h := claim_C1_amended (.ok (some ce1badData)) none 0 (some (fun _ => .ok [])) true
    (fun _ => .ok []) "x" 3
  have hs : (loadLegalRules (.ok (some ce1badData))).success = false := by decide
  exact ⟨hs, rfl, rfl, h.2.1 hs initState, h.2.2 initState rfl rfl⟩

/-! ### Claim C2 -/

/-- Keyword-containment match used by the fallback search: the lowercased
rule text or id contains the lowercased query. -/
def keywordMatch (query : String) (rule : NormalizedRule) : Bool :=
  jsIncludes (jsToLowerCase rule.text) (jsToLowerCase query) ||
  jsIncludes (jsToLowerCase rule.id) (jsToLowerCase query)

/-- First concrete normalized rule for the C2 states. -/
def ce2rule1 : NormalizedRule := { id := "R1", text := "pay", metadata := sampleMeta }

/-- Second concrete normalized rule for the C2 states. -/
def ce2rule2 : NormalizedRule := { id := "R2", text := "pay", metadata := sampleMeta }

/-- Loaded state with two rules and embeddings not ready. -/
def ce2state : RAGState :=
  { rules := [], normalizedRules := [ce2rule1, ce2rule2], rulesWithEmbeddings := [],
    isLoaded := true, embeddingsReady := false, metadata := none }

/-- Counterexample to C2 as stated, in two parts. Empty query: every rule
contains the empty string, yet the code returns the empty list (the falsy
query guard short-circuits the fallback). Negative topK: `slice(0, -1)` keeps
one of two matches, which is not a truncation to at most topK = -1 elements. -/
theorem claim_C2_counterexample :
    (ce2state.searchRelevantRules (fun _ => .ok []) "" 5 = [] ∧
      ce2state.normalizedRules.filter (keywordMatch "") = [ce2rule1, ce2rule2]) ∧
    ((ce2state.searchRelevantRules (fun _ => .ok []) "pay" (-1)).length = 1 ∧
      ¬((1 : Int) ≤ -1)) := by
  refine ⟨⟨?_, by decide⟩, ?_, by norm_num⟩
  · simp [RAGState.searchRelevantRules, ce2state, RAGState.searchRules, jsSliceEnd]
  · decide

/-- C2 (amended): in a loaded state with embeddings not ready, for a non-empty
query and topK >= 0, `searchRelevantRules` does not throw and returns exactly
the rules whose lowercased text or id contains the lowercased query, in corpus
order, truncated to at most topK, each unscored (similarityScore absent); a
query matching no rule yields the empty list. (An empty query returns the
empty list, and a negative topK follows JS slice semantics — see the
counterexample.) -/
theorem claim_C2_amended (s : RAGState) (oc : String → Except String (List ℝ))
    (query : String) (k : Int)
    (hnr : s.embeddingsReady = false) (hld : s.isLoaded = true)
    (hq : query ≠ "") (hk : 0 ≤ k) :
    s.searchRelevantRules oc query k =
      ((s.normalizedRules.filter (keywordMatch query)).take k.toNat).map
        ScoredRule.ofNormalized ∧
    (s.normalizedRules.filter (keywordMatch query) = [] →
      s.searchRelevantRules oc query k = []) ∧
    ∀ r ∈ s.searchRelevantRules oc query k, r.similarityScore = none := by
  have hqb : (query == "") = false := beq_eq_false_iff_ne.2 hq
  have hknn : ¬k < 0 := by omega
  have h1 : s.searchRelevantRules oc query k =
      ((s.normalizedRules.filter (keywordMatch query)).take k.toNat).map
        ScoredRule.ofNormalized := by
    simp [RAGState.searchRelevantRules, hnr, RAGState.searchRules, hld, hqb,
      jsSliceEnd, hknn, keywordMatch]
    rfl
  refine ⟨h1, fun hf => by rw [h1, hf]; simp, ?_⟩
  rw [h1]
  intro r hr
  rcases List.mem_map.1 hr with ⟨a, _, rfl⟩
  rfl

/-- Witness for the amended C2 at the concrete two-rule state. -/
theorem claim_C2_witness :
    ce2state.embeddingsReady = false ∧ ce2state.isLoaded = true ∧
    ("pay" : String) ≠ "" ∧ (0 : Int) ≤ 3 ∧
    ce2state.searchRelevantRules (fun _ => .ok []) "pay" 3 =
      ((ce2state.normalizedRules.filter (keywordMatch "pay")).take (3 : Int).toNat).map
        ScoredRule.ofNormalized := by
  have h := claim_C2_amended ce2state (fun _ => .ok []) "pay" 3 rfl rfl (by decide) (by norm_num)
  exact ⟨rfl, rfl, by decide, by norm_num, h.1⟩


/-! ### Claim C7 -/

/-- Contract-type clause of the claim: pass when no contract type is given
(truthy-wise), else require membership. -/
def passContractType (ctx : FilterContext) (r : NormalizedRule) : Bool :=
  !truthy ctx.contractType || r.metadata.contract_types.contains (ctx.contractType.getD "")

/-- Category clause of the claim: pass when no category is given
(truthy-wise), else require equality. -/
def passCategory (ctx : FilterContext) (r : NormalizedRule) : Bool :=
  !truthy ctx.category || (r.metadata.category.getD "" == ctx.category.getD "")

/-- The contract-type step of `getRelevantRules` is a single filter by the
contract-type clause. -/
theorem filter_contractType_step (l : List NormalizedRule) (ctx : FilterContext) :
    (if truthy ctx.contractType then
      filterNormalizedRules l (contractTypeFilter ctx.contractType)
    else l) = l.filter (passContractType ctx) := by
  by_cases h : truthy ctx.contractType
  · rw [if_pos h]
    cases hct : ctx.contractType with
    | none => rw [hct] at h; simp [truthy] at h
    | some cv =>
      rw [hct] at h
      have hcv : (cv == "") = false := by simpa [truthy] using h
      simp only [filterNormalizedRules, contractTypeFilter]
      apply List.filter_congr
      intro r _
      simp [jsFilterPass, hcv, passContractType, truthy, hct]
  · rw [if_neg h]
    have hf : truthy ctx.contractType = false := by
      cases hb : truthy ctx.contractType
      · rfl
      · exact absurd hb h
    have hall : ∀ r ∈ l, passContractType ctx r = true := by
      intro r _
      simp [passContractType, hf]
    exact (List.filter_eq_self.2 hall).symm

/-- The category step of `getRelevantRules` is a single filter by the
category clause. -/
theorem filter_category_step (l : List NormalizedRule) (ctx : FilterContext) :
    (if truthy ctx.category then
      filterNormalizedRules l (categoryFilter ctx.category)
    else l) = l.filter (passCategory ctx) := by
  by_cases h : truthy ctx.category
  · rw [if_pos h]
    cases hct : ctx.category with
    | none => rw [hct] at h; simp [truthy] at h
    | some cv =>
      rw [hct] at h
      have hcv : (cv == "") = false := by simpa [truthy] using h
      simp only [filterNormalizedRules, categoryFilter]
      apply List.filter_congr
      intro r _
      simp [jsFilterPass, hcv, passCategory, truthy, hct]
  · rw [if_neg h]
    have hf : truthy ctx.category = false := by
      cases hb : truthy ctx.category
      · rfl
      · exact absurd hb h
    have hall : ∀ r ∈ l, passCategory ctx r = true := by
      intro r _
      simp [passCategory, hf]
    exact (List.filter_eq_self.2 hall).symm

/-- A severity-only filter with a non-empty severity value is a filter by
severity equality. -/
theorem filter_severity_some (l : List NormalizedRule) (sv : String)
    (hsv : (sv == "") = false) :
    filterNormalizedRules l (severityFilter (some sv)) =
      l.filter (fun r => r.metadata.severity == sv) := by
  simp only [filterNormalizedRules, severityFilter]
  apply List.filter_congr
  intro r _
  simp [jsFilterPass, hsv]

/-- C7 (amended): in a loaded state, `getRelevantRules` returns exactly the
normalized rules satisfying the conjunction of all provided filters; with an
explicit severity the result is in corpus order, while with no severity given
the result is all high-severity matches in corpus order followed by all
medium-severity matches in corpus order (not globally corpus order). -/
theorem claim_C7_amended (s : RAGState) (ctx : FilterContext) (hld : s.isLoaded = true) :
    (truthy ctx.severity = true →
      s.getRelevantRules ctx = s.normalizedRules.filter (fun r =>
        passContractType ctx r && (r.metadata.severity == ctx.severity.getD "") &&
        passCategory ctx r)) ∧
    (truthy ctx.severity = false →
      s.getRelevantRules ctx =
        s.normalizedRules.filter (fun r =>
          passContractType ctx r && (r.metadata.severity == "high") && passCategory ctx r) ++
        s.normalizedRules.filter (fun r =>
          passContractType ctx r && (r.metadata.severity == "medium") && passCategory ctx r)) := by
  constructor
  · intro hsev
    cases hsv : ctx.severity with
    | none => rw [hsv] at hsev; simp [truthy] at hsev
    | some sv =>
      have hsv' : (sv == "") = false := by
        rw [hsv] at hsev
        simpa [truthy] using hsev
      simp only [RAGState.getRelevantRules, hld, Bool.not_true]
      rw [if_neg (by simp)]
      rw [filter_contractType_step]
      rw [hsv]
      have htr : truthy (some sv) = true := by simp [truthy, hsv']
      rw [htr, if_pos (rfl : (true : Bool) = true)]
      rw [filter_severity_some _ sv hsv']
      rw [filter_category_step]
      simp only [List.filter_filter]
      apply List.filter_congr
      intro r _
      simp only [Option.getD_some]
      cases passContractType ctx r <;> cases hr : r.metadata.severity == sv <;>
        cases passCategory ctx r <;> simp [hr]
  · intro hsev
    simp only [RAGState.getRelevantRules, hld, Bool.not_true]
    rw [if_neg (by simp)]
    rw [filter_contractType_step]
    rw [hsev]
    simp only [Bool.false_eq_true, if_false]
    rw [filter_severity_some _ "high" (by decide), filter_severity_some _ "medium" (by decide)]
    rw [filter_category_step]
    rw [List.filter_append]
    simp only [List.filter_filter]
    refine congrArg₂ (· ++ ·) ?_ ?_
    · apply List.filter_congr
      intro r _
      cases passContractType ctx r <;> cases hr : r.metadata.severity == "high" <;>
        cases passCategory ctx r <;> simp [hr]
    · apply List.filter_congr
      intro r _
      cases passContractType ctx r <;> cases hr : r.metadata.severity == "medium" <;>
        cases passCategory ctx r <;> simp [hr]

/-- Medium-severity concrete rule, listed first in the corpus. -/
def ce7med : NormalizedRule :=
  { id := "M", text := "tm",
    metadata := { jurisdiction := "US", severity := "medium", contract_types := ["NDA"],
                  category := none, reference := none } }

/-- High-severity concrete rule, listed second in the corpus. -/
def ce7high : NormalizedRule :=
  { id := "H", text := "th", metadata := sampleMeta }

/-- Loaded state whose corpus order is medium first, high second. -/
def ce7state : RAGState :=
  { rules := [], normalizedRules := [ce7med, ce7high], rulesWithEmbeddings := [],
    isLoaded := true, embeddingsReady := false, metadata := none }

/-- Counterexample to C7 as stated: with no severity given, the code returns
the high-severity rule before the medium one, not the corpus order that a
single conjunctive filter would keep. -/
theorem claim_C7_counterexample :
    ce7state.getRelevantRules { contractType := none, severity := none, category := none }
      = [ce7high, ce7med] ∧
    ce7state.normalizedRules.filter
      (fun r => r.metadata.severity == "high" || r.metadata.severity == "medium")
      = [ce7med, ce7high] ∧
    ([ce7high, ce7med] : List NormalizedRule) ≠ [ce7med, ce7high] := by
  refine ⟨by decide, by decide, by decide⟩

/-- Witness for the amended C7 at the concrete state with an explicit severity. -/
theorem claim_C7_witness :
    ce7state.isLoaded = true ∧
    truthy (some "high") = true ∧
    ce7state.getRelevantRules { contractType := none, severity := some "high", category := none }
      = ce7state.normalizedRules.filter (fun r =>
          passContractType { contractType := none, severity := some "high", category := none } r &&
          (r.metadata.severity == (some "high" : Option String).getD "") &&
          passCategory { contractType := none, severity := some "high", category := none } r) := by
  have h := (claim_C7_amended ce7state
    { contractType := none, severity := some "high", category := none } rfl).1 (by decide)
  exact ⟨rfl, by decide, h⟩

/-! ### Claim C8 -/

/-- Modelled from the spec claim for refinement comparison only: the text a
per-field-trimming normalizer would build (each included line carries the
trimmed field value). The source trims only the whole joined text. -/
def claimNormalizedText (r : RuleRecord) : String :=
  joinWith "\n" (["Rule: " ++ jsTrim r.rule] ++
    (if truthy r.bad_example then ["Bad example: " ++ jsTrim (r.bad_example.getD "")] else []) ++
    (if truthy r.good_example then ["Good example: " ++ jsTrim (r.good_example.getD "")] else []) ++
    (if truthy r.explanation then ["Explanation: " ++ jsTrim (r.explanation.getD "")] else []))

/-- The head of a `dropWhile` result never satisfies the dropped predicate. -/
theorem head_dropWhile_not (p : Char → Bool) (l : List Char) (c : Char)
    (hc : (l.dropWhile p).head? = some c) : p c = false := by
  induction l with
  | nil => simp [List.dropWhile] at hc
  | cons x xs ih =>
    rw [List.dropWhile_cons] at hc
    by_cases hx : p x
    · rw [if_pos hx] at hc
      exact ih hc
    · rw [if_neg hx] at hc
      simp at hc
      subst hc
      simpa using hx

/-- The last character of a trimmed string is never whitespace. -/
theorem jsTrim_getLast_not_white (s : String) (c : Char)
    (hc : (jsTrim s).data.getLast? = some c) : c.isWhitespace = false := by
  have hdata : (jsTrim s).data =
      ((s.data.dropWhile Char.isWhitespace).reverse.dropWhile Char.isWhitespace).reverse := rfl
  rw [hdata, List.getLast?_reverse] at hc
  exact head_dropWhile_not Char.isWhitespace _ c hc

/-- Record whose rule field carries a trailing space, used against C8. -/
def ce8record : RuleRecord :=
  { rule_id := "R1", category := none, rule := "a ", bad_example := some "b",
    good_example := none, explanation := none, severity := "high",
    contract_types := some ["NDA"], jurisdiction := none, reference := none }

/-- Counterexample to C8 as stated: the source does not trim the individual
fields, so an inner field with trailing whitespace keeps it (only the whole
joined text is trimmed at its two ends), unlike the per-field-trimmed text the
claim describes. -/
theorem claim_C8_counterexample :
    (normalizeRule ce8record "US").text = "Rule: a \nBad example: b" ∧
    claimNormalizedText ce8record = "Rule: a\nBad example: b" ∧
    ("Rule: a \nBad example: b" : String) ≠ "Rule: a\nBad example: b" := by
  refine ⟨by decide, by decide, by decide⟩

/-- C8 (amended): for a record with a non-empty rule field, the normalized
text is the newline-join of the lines `Rule:`, `Bad example:`, `Good
example:`, `Explanation:` in that fixed order, each optional line included iff
its source field is truthy, carrying the raw (untrimmed) field values, with
the whole joined text trimmed once at both ends — hence no trailing blank
lines or trailing whitespace. -/
theorem claim_C8_amended (r : RuleRecord) (jurisdiction : String) (_h : r.rule ≠ "") :
    (normalizeRule r jurisdiction).text =
      jsTrim (joinWith "\n" (["Rule: " ++ r.rule] ++
        (if truthy r.bad_example then ["Bad example: " ++ r.bad_example.getD ""] else []) ++
        (if truthy r.good_example then ["Good example: " ++ r.good_example.getD ""] else []) ++
        (if truthy r.explanation then ["Explanation: " ++ r.explanation.getD ""] else []))) ∧
    ∀ c : Char, (normalizeRule r jurisdiction).text.data.getLast? = some c →
      c.isWhitespace = false := by
  constructor
  · simp [normalizeRule, List.append_assoc]
  · intro c hc
    exact jsTrim_getLast_not_white _ c hc

/-- Witness for the amended C8 at the concrete record. -/
theorem claim_C8_witness :
    ce8record.rule ≠ "" ∧
    (normalizeRule ce8record "US").text =
      jsTrim (joinWith "\n" (["Rule: " ++ ce8record.rule] ++
        (if truthy ce8record.bad_example then
          ["Bad example: " ++ ce8record.bad_example.getD ""] else []) ++
        (if truthy ce8record.good_example then
          ["Good example: " ++ ce8record.good_example.getD ""] else []) ++
        (if truthy ce8record.explanation then
          ["Explanation: " ++ ce8record.explanation.getD ""] else []))) ∧
    (∀ c : Char, (normalizeRule ce8record "US").text.data.getLast? = some c →
      c.isWhitespace = false) := by
  have h := claim_C8_amended ce8record "US" (by decide)
  exact ⟨by decide, h.1, h.2⟩

/-! ### Claim C10 -/

/-- A join starting with a nonempty element is nonempty. -/
theorem joinWith_cons_ne (sep a : String) (l : List String) (ha : 0 < a.length) :
    joinWith sep (a :: l) ≠ "" :=
  string_ne_empty_of_length_pos (lt_of_lt_of_le ha (joinWith_length_ge sep a l))

/-- C10: when embeddings are not ready and the keyword fallback finds at least
one match, `buildSemanticContext` returns a non-empty string and every rule's
relevance percentage is rendered as the literal string `"NaN"` (fallback
results carry no similarityScore, and `(undefined * 100).toFixed(1)` prints
`"NaN"`). -/
theorem claim_C10 (s : RAGState) (oc : String → Except String (List ℝ)) (fmt : ℝ → String)
    (query : String) (k : Int)
    (hnr : s.embeddingsReady = false)
    (hne : s.searchRelevantRules oc query k ≠ []) :
    s.buildSemanticContext oc fmt query k ≠ "" ∧
    (s.searchRelevantRules oc query k).map (fun r => percentString fmt r.similarityScore) =
      List.replicate (s.searchRelevantRules oc query k).length "NaN" := by
  have hnone : ∀ r ∈ s.searchRelevantRules oc query k, r.similarityScore = none := by
    intro r hr
    simp [RAGState.searchRelevantRules, hnr] at hr
    obtain ⟨a, -, rfl⟩ := hr
    rfl
  constructor
  · have hlen0 : (s.searchRelevantRules oc query k).length ≠ 0 := by
      intro h0
      exact hne (List.length_eq_zero.1 h0)
    simp only [RAGState.buildSemanticContext]
    rw [if_neg (by simpa using hlen0)]
    show joinWith "\n" ("# Legal Drafting Guidelines" :: _) ≠ ""
    exact joinWith_cons_ne "\n" _ _ (by decide)
  · rw [List.eq_replicate_iff]
    refine ⟨List.length_map _ _, ?_⟩
    intro b hb
    rcases List.mem_map.1 hb with ⟨r, hr, rfl⟩
    rw [hnone r hr]
    rfl

/-- Witness for C10 at the concrete two-rule fallback state. -/
theorem claim_C10_witness :
    ce2state.embeddingsReady = false ∧
    ce2state.searchRelevantRules (fun _ => .ok []) "pay" 2 ≠ [] ∧
    ce2state.buildSemanticContext (fun _ => .ok []) (fun _ => "") "pay" 2 ≠ "" ∧
    (ce2state.searchRelevantRules (fun _ => .ok []) "pay" 2).map
        (fun r => percentString (fun _ => "") r.similarityScore)
      = List.replicate (ce2state.searchRelevantRules (fun _ => .ok []) "pay" 2).length
          "NaN" := by
  have hlen : (ce2state.searchRelevantRules (fun _ => .ok []) "pay" 2).length = 2 := rfl
  have hne : ce2state.searchRelevantRules (fun _ => .ok []) "pay" 2 ≠ [] := by
    intro h
    rw [h] at hlen
    simp at hlen
  have h := claim_C10 ce2state (fun _ => .ok []) (fun _ => "") "pay" 2 rfl hne
  exact ⟨rfl, hne, h.1, h.2⟩
